import Mathlib

/-!
Shallow embedding of `ledger_afa.py` (Tagirijus/ledger-afa): an annual
depreciation ("AfA") report computed from a ledger journal.  Postings,
transactions and accounts are modelled as plain records; monetary amounts
as `Int`; dates as year/month/day records compared lexicographically.
-/

/-- A calendar date, compared lexicographically like Python `datetime.date`. -/
structure Date where
  year : Nat
  month : Nat
  day : Nat
deriving DecidableEq

/-- Lexicographic `a <= b` on dates, matching Python date comparison. -/
def dateLe (a b : Date) : Bool :=
  decide (a.year < b.year) ||
    (a.year == b.year &&
      (decide (a.month < b.month) ||
        (a.month == b.month && decide (a.day ≤ b.day))))

/-- Python `min` over a sequence of dates: `None` for the empty sequence
(where Python raises `ValueError`), otherwise the least element, first one
kept on ties. -/
def dateListMin : List Date → Option Date
  | [] => none
  | x :: xs => some (xs.foldl (fun a b => if dateLe a b then a else b) x)

/-- The view of a posting from inside its transaction (`xact.posts()`):
what `ledger_afa.py` reads off a sibling posting is its id, its amount and
its account's fullname. -/
structure PostRec where
  id : Nat
  amount : Int
  accountFullname : String
deriving DecidableEq

/-- A transaction (`xact`): an object identity `xid` (Python object
identity, used by default hashing in `set`), a code, and its postings. -/
structure Xact where
  xid : Nat
  code : String
  posts : List PostRec
deriving DecidableEq

/-- A posting attached to an account: unique id, date, signed amount, the
fullname of the account it is attached to (`p.account.fullname()`), and
its parent transaction. -/
structure Posting where
  id : Nat
  date : Date
  amount : Int
  accountFullname : String
  xact : Xact
deriving DecidableEq

/-- An account: a node of the chart-of-accounts tree, with a leaf name, a
fully qualified name, directly attached postings, and child accounts. -/
inductive Account where
  | node (name : String) (fullname : String) (posts : List Posting)
      (children : List Account)

/-- Leaf name, `account.name` in the source. -/
def Account.name : Account → String
  | .node n _ _ _ => n

/-- Fully qualified name, `account.fullname()` in the source. -/
def Account.fullname : Account → String
  | .node _ f _ _ => f

/-- Directly attached postings, `account.posts()` in the source. -/
def Account.posts : Account → List Posting
  | .node _ _ ps _ => ps

/-- Direct children, `account.accounts()` in the source. -/
def Account.accounts : Account → List Account
  | .node _ _ _ cs => cs

mutual

/-- Embedding of `get_sub_accounts`: the direct children followed by the
recursively collected sub-accounts of each child. -/
def get_sub_accounts : Account → List Account
  | .node _ _ _ cs => cs ++ get_sub_accounts_list cs

/-- The list comprehension `[a for acc in children for a in
get_sub_accounts(acc)]`. -/
def get_sub_accounts_list : List Account → List Account
  | [] => []
  | c :: cs => get_sub_accounts c ++ get_sub_accounts_list cs

end

/-- Embedding of `get_afa_posts`.  The external `journal.find_account_re`
lookup is passed in as its result (`none` when the pattern matches no
account); `none` makes the function raise `ValueError` ("Konto nicht
gefunden"), otherwise it returns every posting attached to any account of
the subtree rooted at the match whose date lies in the target year. -/
def get_afa_posts (konto : String) (top : Option Account) (year : Nat) :
    Except String (List Posting) :=
  match top with
  | none => .error ("Konto nicht gefunden: " ++ konto)
  | some t =>
    .ok (((t :: get_sub_accounts t).flatMap Account.posts).filter
      (fun p => p.date.year == year))

/-- The key by which Python's `set` deduplicates the `(account, xact)`
pairs in `get_inventory`: Account equality and hash are monkey-patched to
fullname equality, while `Xact` keeps default identity semantics. -/
def invKey : String × Xact → String × Nat :=
  fun e => (e.1, e.2.xid)

/-- Fold step for `set` insertion: keep the accumulated list, adding the
new pair only when no pair with the same key is present. -/
def invInsert (acc : List (String × Xact)) (e : String × Xact) :
    List (String × Xact) :=
  if acc.any (fun e2 => invKey e2 == invKey e) then acc else acc ++ [e]

/-- Embedding of `get_inventory`: for each depreciation posting, the
sibling postings of its transaction on a different account contribute an
(account fullname, transaction) pair; pairs are deduplicated by
(fullname, transaction identity). -/
def get_inventory (posts : List Posting) : List (String × Xact) :=
  (posts.flatMap (fun post =>
    (post.xact.posts.filter
        (fun p => !(p.accountFullname == post.accountFullname))).map
      (fun p => (p.accountFullname, post.xact)))).foldl invInsert []

deriving instance DecidableEq for Except

/-- The result record of `InventoryItem.__init__` when it succeeds. -/
structure InventoryItem where
  code : String
  item : String
  account : String
  year : Nat
  buy_date : Date
  total_value : Int
  last_year_value : Int
  next_year_value : Int
  deprecation_amount : Int
deriving DecidableEq

/-- Where a failing `InventoryItem.__init__` raises: the uncaught
`ValueError` from `min()` over an empty sequence at `buy_date`, or the
`AttributeError` at `first_post.id` inside the `deprecation_amount` sum
when the unpacking `first_post, = first_post` had failed earlier and a
posting of the reporting year forces `first_post.id` to be evaluated. -/
inductive AfaError where
  | buyDateValueError
  | firstPostAttributeError
deriving DecidableEq

/-- The `buy_date` expression: `min(p.date for p in account.posts() if
p.xact.code == self.code)`, `none` when the sequence is empty. -/
def buyDateOf (account : Account) (code : String) : Option Date :=
  dateListMin ((account.posts.filter (fun p => p.xact.code == code)).map
    (fun p => p.date))

/-- The `first_post` list comprehension: postings matching the code, dated
on `buy_date`, with positive amount. -/
def firstPostList (account : Account) (code : String) (buy_date : Date) :
    List Posting :=
  account.posts.filter (fun p =>
    p.xact.code == code && p.date == buy_date && decide (p.amount > 0))

/-- The `total_value` double generator: `sum(abs(p.amount) for p in
account.posts() for pn in p.xact.posts() if p.date == self.buy_date and
p.xact.code == self.code and pn.amount < 0 and p.id != pn.id)`. -/
def totalValueOf (account : Account) (code : String) (buy_date : Date) :
    Int :=
  ((account.posts.flatMap (fun p =>
    (p.xact.posts.filter (fun pn =>
        p.date == buy_date && p.xact.code == code &&
          decide (pn.amount < 0) && p.id != pn.id)).map
      (fun _ => |p.amount|)))).sum

/-- The `last_year_value` sum: prior-year code-matching postings, plus
positive same-year code-matching postings. -/
def lastYearValueOf (account : Account) (code : String) (year : Nat) :
    Int :=
  ((account.posts.filter (fun p =>
    (decide (p.date.year < year) && p.xact.code == code) ||
      (p.date.year == year && decide (p.amount > 0) &&
        p.xact.code == code))).map (fun p => p.amount)).sum

/-- The `next_year_value` sum: all code-matching postings dated in or
before the year. -/
def nextYearValueOf (account : Account) (code : String) (year : Nat) :
    Int :=
  ((account.posts.filter (fun p =>
    decide (p.date.year ≤ year) && p.xact.code == code)).map
      (fun p => p.amount)).sum

/-- The `deprecation_amount` sum: same-year negative code-matching
postings other than `first_post` (identified by its id). -/
def deprecationAmountOf (account : Account) (code : String) (year : Nat)
    (firstPostId : Nat) : Int :=
  ((account.posts.filter (fun p =>
    p.date.year == year && p.id != firstPostId &&
      decide (p.amount < 0) && p.xact.code == code)).map
      (fun p => p.amount)).sum

/-- Embedding of `InventoryItem.__init__`.  Returns the lines printed by
the `except ValueError` handler and either the constructed item or the
error the construction raises.  When the account has no code-matching
posting, `min()` raises an uncaught `ValueError` at `buy_date`.  When
`first_post` is not a singleton, the Python handler prints the
`ValueError` message and the name `first_post` stays bound to the list;
the `deprecation_amount` generator condition `p.date.year == year and
p.id != first_post.id and ...` then evaluates `first_post.id` — an
uncaught `AttributeError` — only if some posting is dated in the
reporting year, short-circuiting otherwise, so with no posting dated in
the year the construction completes with `deprecation_amount = 0`. -/
def mkInventoryItem (account : Account) (xact : Xact) (year : Nat) :
    List String × Except AfaError InventoryItem :=
  match buyDateOf account xact.code with
  | none => ([], .error .buyDateValueError)
  | some buy_date =>
    match firstPostList account xact.code buy_date with
    | [fp] =>
      ([], .ok
        { code := xact.code
          item := account.name
          account := account.fullname
          year := year
          buy_date := buy_date
          total_value := totalValueOf account xact.code buy_date
          last_year_value := lastYearValueOf account xact.code year
          next_year_value := nextYearValueOf account xact.code year
          deprecation_amount :=
            deprecationAmountOf account xact.code year fp.id })
    | [] =>
      if account.posts.any (fun p => p.date.year == year) then
        (["need more than 0 values to unpack"],
          .error .firstPostAttributeError)
      else
        (["need more than 0 values to unpack"], .ok
          { code := xact.code
            item := account.name
            account := account.fullname
            year := year
            buy_date := buy_date
            total_value := totalValueOf account xact.code buy_date
            last_year_value := lastYearValueOf account xact.code year
            next_year_value := nextYearValueOf account xact.code year
            deprecation_amount := 0 })
    | _ =>
      if account.posts.any (fun p => p.date.year == year) then
        (["too many values to unpack"], .error .firstPostAttributeError)
      else
        (["too many values to unpack"], .ok
          { code := xact.code
            item := account.name
            account := account.fullname
            year := year
            buy_date := buy_date
            total_value := totalValueOf account xact.code buy_date
            last_year_value := lastYearValueOf account xact.code year
            next_year_value := nextYearValueOf account xact.code year
            deprecation_amount := 0 })

/-- Strict descendant relation on the account tree: a direct child, or a
descendant of a direct child.  This is the spec's notion of "direct and
indirect children". -/
inductive IsDescendant : Account → Account → Prop where
  | child {a t : Account} (h : a ∈ t.accounts) : IsDescendant a t
  | step {a c t : Account} (hc : c ∈ t.accounts) (hd : IsDescendant a c) :
      IsDescendant a t

/-- A complete account tree of the given branching factor and depth, with
no postings. -/
def completeTree (b : Nat) : Nat → Account
  | 0 => .node "n" "n" [] []
  | d + 1 => .node "n" "n" [] (List.replicate b (completeTree b d))

/-- The geometric sum `b + b^2 + ... + b^d`. -/
def geomSum (b : Nat) : Nat → Nat
  | 0 => 0
  | d + 1 => b * (1 + geomSum b d)

/-- Modelled from the spec's sentence for `total_value`: sum of
`abs(amount)` over postings `p` on the account such that THERE EXISTS a
sibling `pn` in the same transaction with `p.date == buy_date`,
`p.xact.code == code`, `pn.amount < 0`, `p.id != pn.id` — each qualifying
posting counted exactly once. -/
def totalValueSpecOnce (account : Account) (code : String)
    (buy_date : Date) : Int :=
  ((account.posts.filter (fun p => decide (∃ pn ∈ p.xact.posts,
      p.date = buy_date ∧ p.xact.code = code ∧ pn.amount < 0 ∧
        p.id ≠ pn.id))).map (fun p => |p.amount|)).sum

/-- The amended reading of `total_value`: each qualifying posting `p`
contributes `abs(p.amount)` once PER qualifying sibling `pn`, i.e. its
absolute amount times the number of qualifying siblings. -/
def totalValueAmended (account : Account) (code : String)
    (buy_date : Date) : Int :=
  (account.posts.map (fun p =>
    (((p.xact.posts.filter (fun pn => decide (p.date = buy_date ∧
        p.xact.code = code ∧ pn.amount < 0 ∧ p.id ≠ pn.id))).length : Int))
      * |p.amount|)).sum

/-- The spec's formula for `last_year_value`: sum of amounts over postings
with (`date.year < year` and matching code) or (`date.year == year` and
`amount > 0` and matching code). -/
def lastYearValueSpec (account : Account) (code : String) (year : Nat) :
    Int :=
  ((account.posts.filter (fun p => decide
      ((p.date.year < year ∧ p.xact.code = code) ∨
        (p.date.year = year ∧ p.amount > 0 ∧ p.xact.code = code)))).map
    (fun p => p.amount)).sum

/-- The spec's formula for `deprecation_amount`: sum of amounts over
postings with `date.year == year`, `id != first_post.id`, `amount < 0`
and matching code. -/
def deprecationAmountSpec (account : Account) (code : String) (year : Nat)
    (firstPostId : Nat) : Int :=
  ((account.posts.filter (fun p => decide
      (p.date.year = year ∧ p.id ≠ firstPostId ∧ p.amount < 0 ∧
        p.xact.code = code))).map (fun p => p.amount)).sum

/-- The exclusion-free depreciation sum of claim C10: all same-year
negative code-matching postings, with no posting excluded by id. -/
def deprecationNoExclusion (account : Account) (code : String)
    (year : Nat) : Int :=
  ((account.posts.filter (fun p => decide
      (p.date.year = year ∧ p.amount < 0 ∧ p.xact.code = code))).map
    (fun p => p.amount)).sum

/-- Sum of a function over a filtered list, rewritten as a sum of guarded
terms over the whole list. -/
theorem sum_map_filter_eq_sum_ite {α : Type} (l : List α) (p : α → Bool)
    (f : α → Int) :
    ((l.filter p).map f).sum =
      (l.map (fun x => if p x then f x else 0)).sum := by
  induction l with
  | nil => rfl
  | cons a l ih =>
    by_cases h : p a <;> simp [List.filter_cons, h, ih]

/-- When, member by member, the guarded contribution to one filtered sum
splits as the sum of the contributions to two other filtered sums, the
filtered sums themselves split. -/
theorem sum_filter_split {α : Type} (l : List α) (A B C : α → Bool)
    (f : α → Int)
    (h : ∀ x ∈ l, (if A x then f x else 0) =
      (if B x then f x else 0) + (if C x then f x else 0)) :
    ((l.filter A).map f).sum =
      ((l.filter B).map f).sum + ((l.filter C).map f).sum := by
  rw [sum_map_filter_eq_sum_ite, sum_map_filter_eq_sum_ite,
    sum_map_filter_eq_sum_ite]
  induction l with
  | nil => simp
  | cons a l ih =>
    have ha := h a (List.mem_cons_self a l)
    have ih' := ih (fun x hx => h x (List.mem_cons_of_mem a hx))
    simp only [List.map_cons, List.sum_cons, ha, ih']
    ring

/-- Unfolding a successful `mkInventoryItem`: the buy date resolved and
every field of the item is the corresponding aggregation; for
`deprecation_amount`, either `first_post` was a singleton, or it was not
and no posting is dated in the reporting year, in which case the
short-circuited sum is 0. -/
theorem mk_ok_elim {a : Account} {x : Xact} {year : Nat}
    {it : InventoryItem}
    (h : (mkInventoryItem a x year).2 = .ok it) :
    ∃ bd, buyDateOf a x.code = some bd ∧
      it.code = x.code ∧ it.item = a.name ∧ it.account = a.fullname ∧
      it.year = year ∧ it.buy_date = bd ∧
      it.total_value = totalValueOf a x.code bd ∧
      it.last_year_value = lastYearValueOf a x.code year ∧
      it.next_year_value = nextYearValueOf a x.code year ∧
      ((∃ fp, firstPostList a x.code bd = [fp] ∧
          it.deprecation_amount = deprecationAmountOf a x.code year fp.id) ∨
        ((firstPostList a x.code bd).length ≠ 1 ∧
          (∀ p ∈ a.posts, p.date.year ≠ year) ∧
          it.deprecation_amount = 0)) := by
  have hmulti : ∀ (d : Date) (msg : String),
      ((if (a.posts.any (fun p => p.date.year == year)) = true then
          ([msg], (.error .firstPostAttributeError :
            Except AfaError InventoryItem))
        else ([msg], .ok
          { code := x.code, item := a.name, account := a.fullname,
            year := year, buy_date := d,
            total_value := totalValueOf a x.code d,
            last_year_value := lastYearValueOf a x.code year,
            next_year_value := nextYearValueOf a x.code year,
            deprecation_amount := 0 })).2 = .ok it) →
      (∀ p ∈ a.posts, p.date.year ≠ year) ∧
      it = { code := x.code, item := a.name, account := a.fullname,
             year := year, buy_date := d,
             total_value := totalValueOf a x.code d,
             last_year_value := lastYearValueOf a x.code year,
             next_year_value := nextYearValueOf a x.code year,
             deprecation_amount := 0 } := by
    intro d msg h2
    by_cases hany : (a.posts.any (fun p => p.date.year == year)) = true
    · rw [if_pos hany] at h2
      simp at h2
    · rw [if_neg hany] at h2
      dsimp only at h2
      rw [Except.ok.injEq] at h2
      refine ⟨?_, h2.symm⟩
      intro p hp hyp
      exact hany (List.any_eq_true.mpr ⟨p, hp, by simp [hyp]⟩)
  unfold mkInventoryItem at h
  rcases hbd : buyDateOf a x.code with _ | bd
  · rw [hbd] at h
    simp at h
  · rw [hbd] at h
    dsimp only at h
    rcases hfp : firstPostList a x.code bd with _ | ⟨fp, _ | ⟨fp2, rest⟩⟩
    · rw [hfp] at h
      obtain ⟨hnoyear, hit⟩ := hmulti bd _ h
      subst hit
      refine ⟨bd, rfl, rfl, rfl, rfl, rfl, rfl, rfl, rfl, rfl,
        Or.inr ⟨?_, hnoyear, rfl⟩⟩
      rw [hfp]
      simp
    · rw [hfp] at h
      dsimp only at h
      rw [Except.ok.injEq] at h
      subst h
      exact ⟨bd, rfl, rfl, rfl, rfl, rfl, rfl, rfl, rfl, rfl,
        Or.inl ⟨fp, hfp, rfl⟩⟩
    · rw [hfp] at h
      obtain ⟨hnoyear, hit⟩ := hmulti bd _ h
      subst hit
      refine ⟨bd, rfl, rfl, rfl, rfl, rfl, rfl, rfl, rfl, rfl,
        Or.inr ⟨?_, hnoyear, rfl⟩⟩
      rw [hfp]
      simp

/-- A sample purchase transaction: +1000 on the asset account, -1000 on a
liability account, code INV1. -/
def xactBuy : Xact := ⟨10, "INV1", [⟨1, 1000, "Assets:PC"⟩, ⟨2, -1000, "Liab"⟩]⟩

/-- A sample depreciation transaction: -200 on the asset account, +200 on
the AfA account, same code INV1. -/
def xactDep : Xact := ⟨20, "INV1", [⟨3, -200, "Assets:PC"⟩, ⟨4, 200, "AfA"⟩]⟩

/-- The purchase posting on the asset account, dated 2020-01-15. -/
def postBuy : Posting := ⟨1, ⟨2020, 1, 15⟩, 1000, "Assets:PC", xactBuy⟩

/-- The depreciation posting on the asset account, dated 2021-06-01. -/
def postDep : Posting := ⟨3, ⟨2021, 6, 1⟩, -200, "Assets:PC", xactDep⟩

/-- The sample asset account holding the two postings. -/
def acctPC : Account := .node "PC" "Assets:PC" [postBuy, postDep] []

/-- The inventory item the code computes for `acctPC` in year 2021. -/
def itemPC : InventoryItem :=
  ⟨"INV1", "PC", "Assets:PC", 2021, ⟨2020, 1, 15⟩, 1000, 1000, 800, -200⟩

/-- Claim C3: for every (account, transaction, year) triple, the
constructed item's `last_year_value` equals the sum of amounts over the
account's postings with (year before the reporting year and matching
code) or (same year, positive amount and matching code). -/
theorem claim_C3_last_year_value (a : Account) (x : Xact) (year : Nat)
    (it : InventoryItem)
    (hok : (mkInventoryItem a x year).2 = .ok it) :
    it.last_year_value = lastYearValueSpec a x.code year := by
  obtain ⟨bd, hbd, hcode, hitem, hacct, hyear, hbdate, htot, hlast, hnext,
    hdep⟩ := mk_ok_elim hok
  rw [hlast]
  unfold lastYearValueOf lastYearValueSpec
  congr 1
  apply congrArg
  apply List.filter_congr
  intro p _
  rw [Bool.eq_iff_iff]
  simp [and_assoc]

/-- Witness for claim C3 at the sample account and year 2021. -/
theorem claim_C3_witness :
    (mkInventoryItem acctPC xactDep 2021).2 = .ok itemPC ∧
    itemPC.last_year_value = lastYearValueSpec acctPC "INV1" 2021 :=
  ⟨by decide, claim_C3_last_year_value acctPC xactDep 2021 itemPC (by decide)⟩

/-- Claim C4: when `first_post` resolves to a unique posting, the
constructed item's `deprecation_amount` equals the sum of amounts over
the account's postings with the reporting year, id different from
`first_post.id`, negative amount and matching code. -/
theorem claim_C4_deprecation_amount (a : Account) (x : Xact) (year : Nat)
    (it : InventoryItem) (bd : Date) (fp : Posting)
    (hbd : buyDateOf a x.code = some bd)
    (hfp : firstPostList a x.code bd = [fp])
    (hok : (mkInventoryItem a x year).2 = .ok it) :
    it.deprecation_amount = deprecationAmountSpec a x.code year fp.id := by
  obtain ⟨bd2, hbd2, hcode, hitem, hacct, hyear, hbdate, htot, hlast, hnext,
    hdep⟩ := mk_ok_elim hok
  rw [hbd] at hbd2
  injection hbd2 with hbdeq
  subst hbdeq
  rcases hdep with ⟨fp2, hfp2, hdepeq⟩ | ⟨hlen2, _, _⟩
  swap
  · rw [hfp] at hlen2
    simp at hlen2
  rw [hfp] at hfp2
  injection hfp2 with hfpeq
  subst hfpeq
  rw [hdepeq]
  unfold deprecationAmountOf deprecationAmountSpec
  congr 1
  apply congrArg
  apply List.filter_congr
  intro p _
  rw [Bool.eq_iff_iff]
  simp [and_assoc]

/-- Witness for claim C4 at the sample account and year 2021. -/
theorem claim_C4_witness :
    buyDateOf acctPC "INV1" = some ⟨2020, 1, 15⟩ ∧
    firstPostList acctPC "INV1" ⟨2020, 1, 15⟩ = [postBuy] ∧
    (mkInventoryItem acctPC xactDep 2021).2 = .ok itemPC ∧
    itemPC.deprecation_amount = deprecationAmountSpec acctPC "INV1" 2021 1 :=
  ⟨by decide, by decide, by decide,
    claim_C4_deprecation_amount acctPC xactDep 2021 itemPC ⟨2020, 1, 15⟩
      postBuy (by decide) (by decide) (by decide)⟩

/-- Claim C1: for every asset account whose postings have distinct ids
and no code-matching posting dated after the reporting year, a
successfully constructed item satisfies
`next_year_value = last_year_value + deprecation_amount`. -/
theorem claim_C1_next_eq_last_plus_deprecation (a : Account) (x : Xact)
    (year : Nat) (it : InventoryItem)
    (hids : (a.posts.map Posting.id).Nodup)
    (_hnolater : ∀ p ∈ a.posts, p.xact.code = x.code → p.date.year ≤ year)
    (hok : (mkInventoryItem a x year).2 = .ok it) :
    it.next_year_value = it.last_year_value + it.deprecation_amount := by
  obtain ⟨bd, hbd, hcode, hitem, hacct, hyear, hbdate, htot, hlast, hnext,
    hdep⟩ := mk_ok_elim hok
  rw [hnext, hlast]
  rcases hdep with ⟨fp, hfp, hdepeq⟩ | ⟨hlen2, hnoyear, hdepeq⟩
  swap
  · rw [hdepeq, add_zero]
    unfold nextYearValueOf lastYearValueOf
    congr 1
    apply congrArg
    apply List.filter_congr
    intro p hp
    have hne := hnoyear p hp
    rw [Bool.eq_iff_iff]
    simp only [Bool.and_eq_true, Bool.or_eq_true, decide_eq_true_eq,
      beq_iff_eq, hne, false_and, and_false, or_false]
    constructor
    · rintro ⟨h1, h2⟩
      exact ⟨lt_of_le_of_ne h1 hne, h2⟩
    · rintro ⟨h1, h2⟩
      exact ⟨le_of_lt h1, h2⟩
  rw [hdepeq]
  have hfpm : fp ∈ firstPostList a x.code bd := by
    rw [hfp]
    exact List.mem_singleton_self fp
  rw [firstPostList, List.mem_filter] at hfpm
  obtain ⟨hfpmem, hfppred⟩ := hfpm
  have hfppos : fp.amount > 0 := by
    simp only [Bool.and_eq_true, decide_eq_true_eq] at hfppred
    exact hfppred.2
  have hinj := List.inj_on_of_nodup_map hids
  unfold nextYearValueOf lastYearValueOf deprecationAmountOf
  apply sum_filter_split
  intro p hp
  by_cases hc : p.xact.code = x.code
  · rcases Nat.lt_trichotomy p.date.year year with hy | hy | hy
    · simp [hc, hy, Nat.le_of_lt hy, Nat.ne_of_lt hy]
    · rcases lt_trichotomy p.amount 0 with ha | ha | ha
      · have hne : p ≠ fp := by
          intro he
          rw [he] at ha
          exact absurd hfppos (not_lt.mpr (le_of_lt ha))
        have hid : p.id ≠ fp.id := fun h2 => hne (hinj hp hfpmem h2)
        simp [hc, hy, ha, hid, not_lt.mpr (le_of_lt ha), le_of_eq hy]
      · simp [hc, hy, ha]
      · simp [hc, hy, ha, not_lt.mpr (le_of_lt ha), le_of_eq hy]
    · simp [hc, not_le.mpr hy, Nat.lt_asymm hy, Nat.ne_of_gt hy]
  · simp [hc]

/-- Witness for claim C1 at the sample account and year 2021. -/
theorem claim_C1_witness :
    (acctPC.posts.map Posting.id).Nodup ∧
    (∀ p ∈ acctPC.posts, p.xact.code = xactDep.code →
      p.date.year ≤ 2021) ∧
    (mkInventoryItem acctPC xactDep 2021).2 = .ok itemPC ∧
    itemPC.next_year_value =
      itemPC.last_year_value + itemPC.deprecation_amount :=
  ⟨by decide, by decide, by decide,
    claim_C1_next_eq_last_plus_deprecation acctPC xactDep 2021 itemPC
      (by decide) (by decide) (by decide)⟩

/-- Claim C10: with a uniquely resolved `first_post` and distinct posting
ids, the `id != first_post.id` exclusion in `deprecation_amount` is
vacuous: the sum equals the sum over all same-year negative code-matching
postings. -/
theorem claim_C10_exclusion_vacuous (a : Account) (x : Xact) (year : Nat)
    (it : InventoryItem) (bd : Date) (fp : Posting)
    (hids : (a.posts.map Posting.id).Nodup)
    (hbd : buyDateOf a x.code = some bd)
    (hfp : firstPostList a x.code bd = [fp])
    (hok : (mkInventoryItem a x year).2 = .ok it) :
    it.deprecation_amount = deprecationNoExclusion a x.code year := by
  obtain ⟨bd2, hbd2, hcode, hitem, hacct, hyear, hbdate, htot, hlast, hnext,
    hdep⟩ := mk_ok_elim hok
  rw [hbd] at hbd2
  injection hbd2 with hbdeq
  subst hbdeq
  rcases hdep with ⟨fp2, hfp2, hdepeq⟩ | ⟨hlen2, _, _⟩
  swap
  · rw [hfp] at hlen2
    simp at hlen2
  rw [hfp] at hfp2
  injection hfp2 with hfpeq
  subst hfpeq
  rw [hdepeq]
  have hfpm : fp ∈ firstPostList a x.code bd := by
    rw [hfp]
    exact List.mem_singleton_self fp
  rw [firstPostList, List.mem_filter] at hfpm
  obtain ⟨hfpmem, hfppred⟩ := hfpm
  have hfppos : fp.amount > 0 := by
    simp only [Bool.and_eq_true, decide_eq_true_eq] at hfppred
    exact hfppred.2
  have hinj := List.inj_on_of_nodup_map hids
  unfold deprecationAmountOf deprecationNoExclusion
  congr 1
  apply congrArg
  apply List.filter_congr
  intro p hp
  rw [Bool.eq_iff_iff]
  simp only [Bool.and_eq_true, decide_eq_true_eq, beq_iff_eq, bne_iff_ne,
    and_assoc]
  constructor
  · exact fun h => ⟨h.1, h.2.2⟩
  · intro h
    refine ⟨h.1, fun hideq => ?_, h.2⟩
    have hpeq : p = fp := hinj hp hfpmem hideq
    rw [hpeq] at h
    exact absurd hfppos (not_lt.mpr (le_of_lt h.2.1))

/-- Witness for claim C10 at the sample account and year 2021. -/
theorem claim_C10_witness :
    (acctPC.posts.map Posting.id).Nodup ∧
    buyDateOf acctPC "INV1" = some ⟨2020, 1, 15⟩ ∧
    firstPostList acctPC "INV1" ⟨2020, 1, 15⟩ = [postBuy] ∧
    (mkInventoryItem acctPC xactDep 2021).2 = .ok itemPC ∧
    itemPC.deprecation_amount = deprecationNoExclusion acctPC "INV1" 2021 :=
  ⟨by decide, by decide, by decide, by decide,
    claim_C10_exclusion_vacuous acctPC xactDep 2021 itemPC ⟨2020, 1, 15⟩
      postBuy (by decide) (by decide) (by decide) (by decide)⟩

/-- An asset account with no postings at all, so no code-matching posting
exists for any transaction. -/
def acctEmpty : Account := .node "E" "Assets:E" [] []

/-- Claim C9: when the account has no posting matching the transaction's
code, `min()` at `buy_date` runs over an empty sequence, and construction
fails with the uncaught `ValueError` before any later field is computed,
printing nothing. -/
theorem claim_C9_empty_code_fails (a : Account) (x : Xact) (year : Nat)
    (h : a.posts.filter (fun p => p.xact.code == x.code) = []) :
    mkInventoryItem a x year = ([], .error .buyDateValueError) := by
  have hbd : buyDateOf a x.code = none := by
    unfold buyDateOf
    rw [h]
    rfl
  unfold mkInventoryItem
  rw [hbd]

/-- Witness for claim C9: an account with no postings. -/
theorem claim_C9_witness :
    acctEmpty.posts.filter (fun p => p.xact.code == xactBuy.code) = [] ∧
    mkInventoryItem acctEmpty xactBuy 2021 =
      ([], .error .buyDateValueError) :=
  ⟨by decide, claim_C9_empty_code_fails acctEmpty xactBuy 2021 (by decide)⟩

/-- A transaction whose asset posting is negative, so no posting
qualifies as `first_post`; code INV9. -/
def xactOld : Xact := ⟨50, "INV9", [⟨1, -100, "Assets:ON"⟩, ⟨2, 100, "Liab"⟩]⟩

/-- The single (negative) posting of the account, dated 2019-05-01 — two
years before the reporting year. -/
def postOldNeg : Posting := ⟨1, ⟨2019, 5, 1⟩, -100, "Assets:ON", xactOld⟩

/-- An account whose only posting is negative and dated before the
reporting year: `first_post` is empty, yet no posting of the reporting
year ever forces `first_post.id` to be evaluated. -/
def acctOldNeg : Account := .node "ON" "Assets:ON" [postOldNeg] []

/-- The item the code then completes with for year 2021: the unpacking
error was caught and printed, and `deprecation_amount` short-circuits to
the empty sum 0. -/
def itemOldNeg : InventoryItem :=
  ⟨"INV9", "ON", "Assets:ON", 2021, ⟨2019, 5, 1⟩, 0, -100, -100, 0⟩

/-- Counterexample to claim C7 as stated: `first_post` resolves to zero
postings, the message is printed — but the construction does NOT raise at
`deprecation_amount`: the short-circuit `and` never evaluates
`first_post.id` because no posting is dated in the reporting year, and
the item is built with `deprecation_amount = 0`. -/
theorem claim_C7_counterexample :
    buyDateOf acctOldNeg "INV9" = some ⟨2019, 5, 1⟩ ∧
    (firstPostList acctOldNeg "INV9" ⟨2019, 5, 1⟩).length ≠ 1 ∧
    mkInventoryItem acctOldNeg xactOld 2021 =
      (["need more than 0 values to unpack"], .ok itemOldNeg) := by
  refine ⟨by decide, by decide, by decide⟩

/-- Claim C7 amended: when `first_post` does not resolve to exactly one
posting, the `ValueError` from unpacking is caught and a message printed
and construction continues; it then raises at the `deprecation_amount`
computation (the `AttributeError` at `first_post.id`) if and only if some
posting of the account is dated in the reporting year — otherwise the
short-circuited generator never touches `first_post.id` and the item is
completed with `deprecation_amount = 0`. -/
theorem claim_C7_first_post_failure_modes (a : Account) (x : Xact)
    (year : Nat) (bd : Date)
    (hbd : buyDateOf a x.code = some bd)
    (hlen : (firstPostList a x.code bd).length ≠ 1) :
    (mkInventoryItem a x year).1 ≠ [] ∧
    ((mkInventoryItem a x year).2 = .error .firstPostAttributeError ↔
      ∃ p ∈ a.posts, p.date.year = year) ∧
    ∀ it2, (mkInventoryItem a x year).2 = .ok it2 →
      it2.deprecation_amount = 0 := by
  unfold mkInventoryItem
  rw [hbd]
  dsimp only
  have herr : (a.posts.any (fun p => p.date.year == year)) = true ↔
      ∃ p ∈ a.posts, p.date.year = year := by
    rw [List.any_eq_true]
    constructor
    · rintro ⟨p, hp, hy⟩
      exact ⟨p, hp, by simpa using hy⟩
    · rintro ⟨p, hp, hy⟩
      exact ⟨p, hp, by simp [hy]⟩
  rcases hfp : firstPostList a x.code bd with _ | ⟨fp, _ | ⟨fp2, rest⟩⟩
  · dsimp only
    by_cases hany : (a.posts.any (fun p => p.date.year == year)) = true
    · rw [if_pos hany]
      refine ⟨by simp, ?_, ?_⟩
      · exact ⟨fun _ => herr.mp hany, fun _ => rfl⟩
      · intro it2 h2
        simp at h2
    · rw [if_neg hany]
      refine ⟨by simp, ?_, ?_⟩
      · constructor
        · intro h2
          simp at h2
        · intro hex
          exact absurd (herr.mpr hex) hany
      · intro it2 h2
        dsimp only at h2
        rw [Except.ok.injEq] at h2
        rw [← h2]
  · rw [hfp] at hlen
    simp at hlen
  · dsimp only
    by_cases hany : (a.posts.any (fun p => p.date.year == year)) = true
    · rw [if_pos hany]
      refine ⟨by simp, ?_, ?_⟩
      · exact ⟨fun _ => herr.mp hany, fun _ => rfl⟩
      · intro it2 h2
        simp at h2
    · rw [if_neg hany]
      refine ⟨by simp, ?_, ?_⟩
      · constructor
        · intro h2
          simp at h2
        · intro hex
          exact absurd (herr.mpr hex) hany
      · intro it2 h2
        dsimp only at h2
        rw [Except.ok.injEq] at h2
        rw [← h2]

/-- An asset account holding two positive postings on the same date with
the same code: `first_post` matches both. -/
def acctTwoFirst : Account :=
  .node "TF" "Assets:TF"
    [⟨1, ⟨2020, 1, 15⟩, 600, "Assets:TF", xactBuy⟩,
     ⟨2, ⟨2020, 1, 15⟩, 400, "Assets:TF", xactBuy⟩] []

/-- Witness for the amended claim C7: two candidate first postings, with
postings dated in the reporting year forcing the raise. -/
theorem claim_C7_witness :
    buyDateOf acctTwoFirst "INV1" = some ⟨2020, 1, 15⟩ ∧
    (firstPostList acctTwoFirst "INV1" ⟨2020, 1, 15⟩).length ≠ 1 ∧
    ((mkInventoryItem acctTwoFirst xactBuy 2020).1 ≠ [] ∧
      ((mkInventoryItem acctTwoFirst xactBuy 2020).2 =
          .error .firstPostAttributeError ↔
        ∃ p ∈ acctTwoFirst.posts, p.date.year = 2020) ∧
      ∀ it2, (mkInventoryItem acctTwoFirst xactBuy 2020).2 = .ok it2 →
        it2.deprecation_amount = 0) :=
  ⟨by decide, by decide,
    claim_C7_first_post_failure_modes acctTwoFirst xactBuy 2020
      ⟨2020, 1, 15⟩ (by decide) (by decide)⟩

/-- A purchase transaction funded by two negative postings: +1000 asset,
-500 and -500 on two liability accounts, code INV2. -/
def xactTwoNeg : Xact :=
  ⟨30, "INV2", [⟨5, 1000, "Assets:TV"⟩, ⟨6, -500, "Liab"⟩, ⟨7, -500, "Liab2"⟩]⟩

/-- The asset posting of `xactTwoNeg`, dated 2020-01-15. -/
def postBuyTV : Posting := ⟨5, ⟨2020, 1, 15⟩, 1000, "Assets:TV", xactTwoNeg⟩

/-- The asset account for the two-negative-sibling purchase. -/
def acctTV : Account := .node "TV" "Assets:TV" [postBuyTV] []

/-- The item the code computes for `acctTV` in 2020: the qualifying asset
posting is counted once per negative sibling, so `total_value = 2000`. -/
def itemTV : InventoryItem :=
  ⟨"INV2", "TV", "Assets:TV", 2020, ⟨2020, 1, 15⟩, 2000, 1000, 1000, 0⟩

/-- Counterexample to claim C2 as stated: with two qualifying negative
siblings the code's `total_value` is 2000, while the claimed
each-posting-counted-once sum is 1000. -/
theorem claim_C2_counterexample :
    (mkInventoryItem acctTV xactTwoNeg 2020).2 = .ok itemTV ∧
    itemTV.total_value ≠ totalValueSpecOnce acctTV "INV2" ⟨2020, 1, 15⟩ := by
  constructor
  · decide
  · decide

/-- Claim C2 amended: the constructed item's `total_value` equals the sum
over the account's postings of abs(amount) multiplied by the number of
qualifying siblings — one contribution per (posting, sibling) pair, not
one per posting. -/
theorem claim_C2_total_value_per_pair (a : Account) (x : Xact) (year : Nat)
    (it : InventoryItem)
    (hok : (mkInventoryItem a x year).2 = .ok it) :
    it.total_value = totalValueAmended a x.code it.buy_date := by
  obtain ⟨bd, hbd, hcode, hitem, hacct, hyear, hbdate, htot, hlast, hnext,
    hdep⟩ := mk_ok_elim hok
  rw [htot, hbdate]
  unfold totalValueOf totalValueAmended
  rw [List.flatMap_def, List.sum_flatten, List.map_map]
  congr 1
  apply List.map_congr_left
  intro p _
  simp only [Function.comp_apply]
  have hfilter : p.xact.posts.filter (fun pn =>
      p.date == bd && p.xact.code == x.code &&
        decide (pn.amount < 0) && p.id != pn.id) =
    p.xact.posts.filter (fun pn => decide (p.date = bd ∧
      p.xact.code = x.code ∧ pn.amount < 0 ∧ p.id ≠ pn.id)) := by
    apply List.filter_congr
    intro pn _
    rw [Bool.eq_iff_iff]
    simp [and_assoc]
  rw [hfilter, List.map_const', List.sum_replicate, nsmul_eq_mul]

/-- Witness for the amended claim C2 at the two-sibling sample. -/
theorem claim_C2_witness :
    (mkInventoryItem acctTV xactTwoNeg 2020).2 = .ok itemTV ∧
    itemTV.total_value = totalValueAmended acctTV "INV2" itemTV.buy_date :=
  ⟨by decide,
    claim_C2_total_value_per_pair acctTV xactTwoNeg 2020 itemTV (by decide)⟩

/-- Folding `invInsert` never introduces a duplicate key. -/
theorem foldl_invInsert_nodup (es : List (String × Xact))
    (acc : List (String × Xact)) (h : (acc.map invKey).Nodup) :
    ((es.foldl invInsert acc).map invKey).Nodup := by
  induction es generalizing acc with
  | nil => exact h
  | cons e es ih =>
    apply ih
    unfold invInsert
    by_cases hmem : (acc.any (fun e2 => invKey e2 == invKey e)) = true
    · rw [if_pos hmem]
      exact h
    · rw [if_neg hmem]
      rw [List.map_append]
      refine List.Nodup.append h (List.nodup_singleton _) ?_
      intro k hk hk2
      simp only [List.map_cons, List.map_nil, List.mem_singleton] at hk2
      subst hk2
      apply hmem
      rw [List.any_eq_true]
      obtain ⟨e2, he2, hkey⟩ := List.mem_map.mp hk
      exact ⟨e2, he2, by rw [beq_iff_eq, hkey]⟩

/-- The keys present after folding `invInsert` are the initial keys plus
the keys of the inserted pairs. -/
theorem foldl_invInsert_mem_key (es : List (String × Xact))
    (acc : List (String × Xact)) (k : String × Nat) :
    k ∈ (es.foldl invInsert acc).map invKey ↔
      k ∈ acc.map invKey ∨ ∃ e ∈ es, invKey e = k := by
  induction es generalizing acc with
  | nil => simp
  | cons e es ih =>
    rw [List.foldl_cons, ih]
    have hstep : k ∈ (invInsert acc e).map invKey ↔
        k ∈ acc.map invKey ∨ invKey e = k := by
      unfold invInsert
      by_cases hmem : (acc.any (fun e2 => invKey e2 == invKey e)) = true
      · rw [if_pos hmem]
        constructor
        · exact Or.inl
        · rintro (hk | hk)
          · exact hk
          · rw [List.any_eq_true] at hmem
            obtain ⟨e2, he2, hkey⟩ := hmem
            rw [beq_iff_eq] at hkey
            exact List.mem_map.mpr ⟨e2, he2, by rw [hkey, hk]⟩
      · rw [if_neg hmem]
        rw [List.map_append]
        simp [eq_comm]
    rw [hstep]
    constructor
    · rintro ((hk | hk) | ⟨e2, he2, hkey⟩)
      · exact Or.inl hk
      · exact Or.inr ⟨e, List.mem_cons_self e es, hk⟩
      · exact Or.inr ⟨e2, List.mem_cons_of_mem e he2, hkey⟩
    · rintro (hk | ⟨e2, he2, hkey⟩)
      · exact Or.inl (Or.inl hk)
      · rcases List.mem_cons.mp he2 with he | he
        · exact Or.inl (Or.inr (by rw [← he]; exact hkey))
        · exact Or.inr ⟨e2, he, hkey⟩

/-- A depreciation transaction with code INV1, one of two distinct
transaction objects sharing the code. -/
def xactDepA : Xact := ⟨40, "INV1", [⟨8, -100, "Assets:PC"⟩, ⟨9, 100, "AfA"⟩]⟩

/-- A second, distinct depreciation transaction with the same code. -/
def xactDepB : Xact := ⟨41, "INV1", [⟨10, -100, "Assets:PC"⟩, ⟨11, 100, "AfA"⟩]⟩

/-- The AfA-side depreciation posting of `xactDepA`. -/
def postAfaA : Posting := ⟨9, ⟨2021, 3, 1⟩, 100, "AfA", xactDepA⟩

/-- The AfA-side depreciation posting of `xactDepB`. -/
def postAfaB : Posting := ⟨11, ⟨2021, 9, 1⟩, 100, "AfA", xactDepB⟩

/-- Counterexample to claim C5 as stated: two depreciation postings whose
transactions reference the same asset account fullname and carry the same
code, yet the discoverer yields two pairs, because deduplication is by
transaction identity, not by code. -/
theorem claim_C5_counterexample :
    postAfaA.xact.code = postAfaB.xact.code ∧
    (∃ p ∈ postAfaA.xact.posts, p.accountFullname = "Assets:PC" ∧
      p.accountFullname ≠ postAfaA.accountFullname) ∧
    (∃ p ∈ postAfaB.xact.posts, p.accountFullname = "Assets:PC" ∧
      p.accountFullname ≠ postAfaB.accountFullname) ∧
    (get_inventory [postAfaA, postAfaB]).length = 2 := by
  refine ⟨by decide, ?_, ?_, by decide⟩
  · exact ⟨⟨8, -100, "Assets:PC"⟩, by decide, by decide, by decide⟩
  · exact ⟨⟨10, -100, "Assets:PC"⟩, by decide, by decide, by decide⟩

/-- Claim C5 amended: the discoverer deduplicates by (account fullname,
transaction identity): the emitted pairs have pairwise distinct such keys,
and a key appears exactly when some depreciation posting has a sibling on
a different account with that fullname in that very transaction.  Two
depreciation postings in the same transaction with the same sibling
fullname therefore yield one pair, while distinct transaction objects
sharing a code yield distinct pairs. -/
theorem claim_C5_dedup_by_identity (posts : List Posting) :
    ((get_inventory posts).map invKey).Nodup ∧
    ∀ k, k ∈ (get_inventory posts).map invKey ↔
      ∃ post ∈ posts, ∃ p ∈ post.xact.posts,
        p.accountFullname ≠ post.accountFullname ∧
        k = (p.accountFullname, post.xact.xid) := by
  constructor
  · exact foldl_invInsert_nodup _ [] (by simp)
  · intro k
    rw [get_inventory, foldl_invInsert_mem_key]
    simp only [List.map_nil, List.not_mem_nil, false_or]
    constructor
    · rintro ⟨e, he, hkey⟩
      obtain ⟨post, hpost, hin⟩ := List.mem_flatMap.mp he
      obtain ⟨p, hp, hpe⟩ := List.mem_map.mp hin
      obtain ⟨hpmem, hppred⟩ := List.mem_filter.mp hp
      refine ⟨post, hpost, p, hpmem, ?_, ?_⟩
      · simpa using hppred
      · rw [← hkey, ← hpe]
        rfl
    · rintro ⟨post, hpost, p, hpmem, hne, hkey⟩
      refine ⟨(p.accountFullname, post.xact), ?_, by rw [hkey]; rfl⟩
      apply List.mem_flatMap.mpr
      refine ⟨post, hpost, ?_⟩
      apply List.mem_map.mpr
      refine ⟨p, ?_, rfl⟩
      apply List.mem_filter.mpr
      exact ⟨hpmem, by simpa using hne⟩

/-- Claim C6: with no matching account the selector fails with the
account-not-found error and no posting list is produced; with a match it
returns exactly the postings attached to accounts of the matched subtree
whose date's year equals the target year. -/
theorem claim_C6_selector (konto : String) (year : Nat) :
    get_afa_posts konto none year =
      .error ("Konto nicht gefunden: " ++ konto) ∧
    ∀ t ps, get_afa_posts konto (some t) year = .ok ps →
      ∀ p, p ∈ ps ↔ ∃ a2, a2 ∈ t :: get_sub_accounts t ∧ p ∈ a2.posts ∧
        p.date.year = year := by
  constructor
  · rfl
  · intro t ps hok p
    unfold get_afa_posts at hok
    simp only [Except.ok.injEq] at hok
    subst hok
    rw [List.mem_filter, List.mem_flatMap]
    constructor
    · rintro ⟨⟨a2, ha2, hp⟩, hy⟩
      exact ⟨a2, ha2, hp, by simpa using hy⟩
    · rintro ⟨a2, ha2, hp, hy⟩
      exact ⟨⟨a2, ha2, hp⟩, by simpa using hy⟩

/-- Witness for claim C6: the missing-account branch at a concrete
pattern, and the subtree filter at the sample account for 2021. -/
theorem claim_C6_witness :
    get_afa_posts "Nonexistent" none 2021 =
      .error ("Konto nicht gefunden: " ++ "Nonexistent") ∧
    (postDep ∈ [postDep] ↔ ∃ a2, a2 ∈ acctPC :: get_sub_accounts acctPC ∧
      postDep ∈ a2.posts ∧ postDep.date.year = 2021) :=
  ⟨(claim_C6_selector "Nonexistent" 2021).1,
    (claim_C6_selector "AfA" 2021).2 acctPC [postDep] (by decide) postDep⟩

mutual

/-- Membership in `get_sub_accounts` is exactly strict descendance. -/
theorem mem_get_sub_accounts_iff : ∀ (a t : Account),
    a ∈ get_sub_accounts t ↔ IsDescendant a t
  | a, .node n f ps cs => by
    rw [get_sub_accounts, List.mem_append]
    constructor
    · rintro (h | h)
      · exact IsDescendant.child (t := .node n f ps cs) h
      · obtain ⟨c, hc, hd⟩ := (mem_get_sub_accounts_list_iff a cs).mp h
        exact IsDescendant.step (t := .node n f ps cs) hc hd
    · intro h
      cases h with
      | child hmem => exact Or.inl hmem
      | step hc hd =>
        rename_i c
        exact Or.inr ((mem_get_sub_accounts_list_iff a cs).mpr ⟨c, hc, hd⟩)

/-- Membership in the recursively collected child lists. -/
theorem mem_get_sub_accounts_list_iff : ∀ (a : Account) (cs : List Account),
    a ∈ get_sub_accounts_list cs ↔ ∃ c ∈ cs, IsDescendant a c
  | a, [] => by simp [get_sub_accounts_list]
  | a, c :: cs => by
    rw [get_sub_accounts_list, List.mem_append,
      mem_get_sub_accounts_iff a c, mem_get_sub_accounts_list_iff a cs]
    constructor
    · rintro (h | ⟨c2, hc2, hd⟩)
      · exact ⟨c, List.mem_cons_self c cs, h⟩
      · exact ⟨c2, List.mem_cons_of_mem c hc2, hd⟩
    · rintro ⟨c2, hc2, hd⟩
      rcases List.mem_cons.mp hc2 with he | he
      · subst he
        exact Or.inl hd
      · exact Or.inr ⟨c2, he, hd⟩

end

/-- Collecting sub-accounts over `b` copies of one tree yields `b` copies
of its sub-account list. -/
theorem length_get_sub_accounts_list_replicate (b : Nat) (x : Account) :
    (get_sub_accounts_list (List.replicate b x)).length =
      b * (get_sub_accounts x).length := by
  induction b with
  | zero => simp [get_sub_accounts_list]
  | succ b ih =>
    rw [List.replicate_succ, get_sub_accounts_list, List.length_append, ih]
    ring

/-- The walker's output on the complete tree has geometric-sum length. -/
theorem length_get_sub_accounts_completeTree (b d : Nat) :
    (get_sub_accounts (completeTree b d)).length = geomSum b d := by
  induction d with
  | zero => rfl
  | succ d ih =>
    rw [completeTree, get_sub_accounts, List.length_append,
      List.length_replicate, length_get_sub_accounts_list_replicate, ih,
      geomSum]
    ring

/-- The recursive geometric sum equals `b + b^2 + ... + b^d`. -/
theorem geomSum_eq_sum (b d : Nat) :
    geomSum b d = ∑ i ∈ Finset.range d, b ^ (i + 1) := by
  induction d with
  | zero => simp [geomSum]
  | succ d ih =>
    rw [geomSum, ih, Finset.sum_range_succ', Nat.mul_add, Nat.mul_one,
      Finset.mul_sum]
    have hterm : ∀ i ∈ Finset.range d, b * b ^ (i + 1) = b ^ (i + 1 + 1) := by
      intro i _
      ring
    rw [Finset.sum_congr rfl hterm]
    simp [Nat.add_comm]

/-- Claim C8: the walker returns exactly the strict descendants of the
root — membership is descendance, the root itself is excluded, there are
no duplicates (given the data-model invariant that fullnames in the tree
are distinct), and on a complete tree of branching `b` and depth `d` the
result has length `b + b^2 + ... + b^d`. -/
theorem claim_C8_tree_walker (t : Account)
    (hnames : ((t :: get_sub_accounts t).map Account.fullname).Nodup) :
    (∀ a, a ∈ get_sub_accounts t ↔ IsDescendant a t) ∧
    t ∉ get_sub_accounts t ∧
    (get_sub_accounts t).Nodup ∧
    (∀ b d, (get_sub_accounts (completeTree b d)).length =
      ∑ i ∈ Finset.range d, b ^ (i + 1)) := by
  rw [List.map_cons] at hnames
  refine ⟨fun a => mem_get_sub_accounts_iff a t, ?_, ?_, ?_⟩
  · intro hmem
    exact (List.nodup_cons.mp hnames).1
      (List.mem_map_of_mem Account.fullname hmem)
  · exact List.Nodup.of_map Account.fullname (List.nodup_cons.mp hnames).2
  · intro b d
    rw [length_get_sub_accounts_completeTree, geomSum_eq_sum]

/-- A small two-child account tree with pairwise distinct fullnames. -/
def acctRoot : Account :=
  .node "r" "r" [] [.node "c1" "r:c1" [] [], .node "c2" "r:c2" [] []]

/-- Witness for claim C8 at the two-child sample tree. -/
theorem claim_C8_witness :
    ((acctRoot :: get_sub_accounts acctRoot).map Account.fullname).Nodup ∧
    ((∀ a, a ∈ get_sub_accounts acctRoot ↔ IsDescendant a acctRoot) ∧
      acctRoot ∉ get_sub_accounts acctRoot ∧
      (get_sub_accounts acctRoot).Nodup ∧
      (∀ b d, (get_sub_accounts (completeTree b d)).length =
        ∑ i ∈ Finset.range d, b ^ (i + 1))) :=
  ⟨by decide, claim_C8_tree_walker acctRoot (by decide)⟩
